import Mathlib

/-!
# LED Display Manager: the sample driver `led_manager_example.c`

A shallow embedding of `src/sample_sw/led_manager_example.c` and proofs about
the register protocol and the coordinate encoding.

* `u32` values are natural numbers; the left shifts of line 77 are reduced
  modulo `2 ^ 32`, the only place where a 32-bit computation can overflow.
* The three memory-mapped registers are observed through a trace of accesses
  (`Access`): control writes, data writes and status reads, in program order.
* The status register is a stream `Nat → Nat`: the value returned by the
  n-th read.  The time source `XTime_GetTime` is a stream as well.
* The busy-wait loops take a fuel argument: `none` means that the loop was
  still spinning when the fuel ran out.
* `xil_printf`, `init_platform` and `cleanup_platform` do not touch the three
  registers and are left out of the trace.
-/

namespace LedManager

/-! ## Constants (lines 36-44) -/

def LED_ENABLE : Nat := 0x00010000
def LED_DISABLE : Nat := 0x00000000

def CMD_UPDATE : Nat := 0x1
def CMD_INITIALIZE : Nat := 0x2
def CMD_RESET : Nat := 0x4

def STATUS_INITIALIZED : Nat := 0x1
def STATUS_READY : Nat := 0x2

/-! ## Registers, platform and machine state -/

/-- One access to a register of the LED manager. -/
inductive Access where
  | control_write (v : Nat)
  | data_write (v : Nat)
  | status_read (v : Nat)
  deriving DecidableEq, Repr

/-- What the hardware and the board support package supply.
`status n` is the value returned by the n-th read of the status register,
`time n` the value stored by the n-th call of `XTime_GetTime`, and
`under_one_second d` the outcome of the floating-point test
`(d / ((float)COUNTS_PER_SECOND)) < 1` on a 64-bit tick difference `d`
(`COUNTS_PER_SECOND` comes from the board support package). -/
structure Platform where
  status : Nat → Nat
  time : Nat → Nat
  under_one_second : Nat → Bool

/-- Program state: how many status reads and time reads were performed, and
the register accesses so far, oldest first. -/
structure Machine where
  status_reads : Nat
  time_reads : Nat
  trace : List Access
  deriving DecidableEq, Repr

/-- State at program start. -/
def Machine.start : Machine := ⟨0, 0, []⟩

/-- The store `*led_manager_control_reg = cmd;`. -/
def write_control (cmd : Nat) (m : Machine) : Machine :=
  { m with trace := m.trace ++ [Access.control_write cmd] }

/-- The store `*led_manager_data_reg = v;`. -/
def write_data (v : Nat) (m : Machine) : Machine :=
  { m with trace := m.trace ++ [Access.data_write v] }

/-- One read of the status register, `*led_manager_status_reg`. -/
def read_status (p : Platform) (m : Machine) : Nat × Machine :=
  (p.status m.status_reads,
   { m with status_reads := m.status_reads + 1,
            trace := m.trace ++ [Access.status_read (p.status m.status_reads)] })

/-- The loop `while (((*led_manager_status_reg) & mask) == 0) ;`. -/
def wait_status (p : Platform) (mask : Nat) : Nat → Machine → Option Machine
  | 0, _ => none
  | fuel + 1, m =>
    if (read_status p m).1 &&& mask = 0 then wait_status p mask fuel (read_status p m).2
    else some (read_status p m).2

/-! ## Encoding (lines 75-83) -/

/-- The value of `(panel << 8) | (y << 3) | x | enable` on `u32` operands. -/
def led_word (panel x y enable : Nat) : Nat :=
  ((panel <<< 8) % 2 ^ 32) ||| ((y <<< 3) % 2 ^ 32) ||| x ||| enable

def update_led_by_panel (panel x y enable : Nat) (m : Machine) : Machine :=
  write_data (led_word panel x y enable) m

def update_led (x y enable : Nat) (m : Machine) : Machine :=
  update_led_by_panel (x / 8) (x % 8) y enable m

/-! ## Initialisation (lines 85-90) -/

def initialize_display (p : Platform) (fuel : Nat) (m : Machine) : Option Machine :=
  wait_status p STATUS_INITIALIZED fuel (write_control CMD_INITIALIZE m)

/-! ## The timed hold (lines 198-204 and 310-316) -/

/-- The call `XTime_GetTime(&t)`: the next value of the 64-bit time source. -/
def get_time (p : Platform) (m : Machine) : Nat × Machine :=
  (p.time m.time_reads % 2 ^ 64, { m with time_reads := m.time_reads + 1 })

/-- The loop `while (((tEnd - tStart)/((float)COUNTS_PER_SECOND)) < 1) XTime_GetTime(&tEnd);`. -/
def hold_loop (p : Platform) (tStart : Nat) : Nat → Nat → Machine → Option Machine
  | 0, _, _ => none
  | fuel + 1, tEnd, m =>
    if p.under_one_second ((tEnd + 2 ^ 64 - tStart) % 2 ^ 64) then
      hold_loop p tStart fuel (get_time p m).1 (get_time p m).2
    else some m

/-- The block "Wait for 1s". -/
def wait_one_second (p : Platform) (fuel : Nat) (m : Machine) : Option Machine :=
  hold_loop p (get_time p m).1 fuel (get_time p (get_time p m).2).1 (get_time p (get_time p m).2).2

/-! ## The demo (lines 92-317) -/

/-- The `update_led` calls of lines 103-189 as `(x, y, enable)`, in program order. -/
def hello_calls : List (Nat × Nat × Nat) :=
  [ -- H
    (1, 1, LED_ENABLE), (1, 2, LED_ENABLE), (1, 3, LED_ENABLE), (1, 4, LED_ENABLE),
    (1, 5, LED_ENABLE),
    (2, 3, LED_ENABLE),
    (3, 3, LED_ENABLE),
    (4, 3, LED_ENABLE),
    (5, 1, LED_ENABLE), (5, 2, LED_ENABLE), (5, 3, LED_ENABLE), (5, 4, LED_ENABLE),
    (5, 5, LED_ENABLE),
    -- E
    (7, 1, LED_ENABLE), (7, 2, LED_ENABLE), (7, 3, LED_ENABLE), (7, 4, LED_ENABLE),
    (7, 5, LED_ENABLE),
    (8, 1, LED_ENABLE), (8, 3, LED_ENABLE), (8, 5, LED_ENABLE),
    (9, 1, LED_ENABLE), (9, 3, LED_ENABLE), (9, 5, LED_ENABLE),
    (10, 1, LED_ENABLE), (10, 3, LED_ENABLE), (10, 5, LED_ENABLE),
    (11, 1, LED_ENABLE), (11, 5, LED_ENABLE),
    -- L
    (13, 1, LED_ENABLE), (13, 2, LED_ENABLE), (13, 3, LED_ENABLE), (13, 4, LED_ENABLE),
    (13, 5, LED_ENABLE),
    (14, 5, LED_ENABLE),
    (15, 5, LED_ENABLE),
    (16, 5, LED_ENABLE),
    (17, 5, LED_ENABLE),
    -- L
    (19, 1, LED_ENABLE), (19, 2, LED_ENABLE), (19, 3, LED_ENABLE), (19, 4, LED_ENABLE),
    (19, 5, LED_ENABLE),
    (20, 5, LED_ENABLE),
    (21, 5, LED_ENABLE),
    (22, 5, LED_ENABLE),
    (23, 5, LED_ENABLE),
    -- O
    (25, 2, LED_ENABLE), (25, 3, LED_ENABLE), (25, 4, LED_ENABLE),
    (26, 1, LED_ENABLE), (26, 5, LED_ENABLE),
    (27, 1, LED_ENABLE), (27, 5, LED_ENABLE),
    (28, 1, LED_ENABLE), (28, 5, LED_ENABLE),
    (29, 2, LED_ENABLE), (29, 3, LED_ENABLE), (29, 4, LED_ENABLE) ]

/-- The `update_led` calls of lines 214-303 as `(x, y, enable)`, in program order. -/
def world_calls : List (Nat × Nat × Nat) :=
  [ -- W
    (2, 2, LED_ENABLE), (2, 3, LED_ENABLE), (2, 4, LED_ENABLE), (2, 5, LED_ENABLE),
    (2, 6, LED_ENABLE),
    (3, 5, LED_ENABLE),
    (4, 4, LED_ENABLE),
    (5, 5, LED_ENABLE),
    (6, 2, LED_ENABLE), (6, 3, LED_ENABLE), (6, 4, LED_ENABLE), (6, 5, LED_ENABLE),
    (6, 6, LED_ENABLE),
    -- O
    (8, 3, LED_ENABLE), (8, 4, LED_ENABLE), (8, 5, LED_ENABLE),
    (9, 2, LED_ENABLE), (9, 6, LED_ENABLE),
    (10, 2, LED_ENABLE), (10, 6, LED_ENABLE),
    (11, 2, LED_ENABLE), (11, 6, LED_ENABLE),
    (12, 3, LED_ENABLE), (12, 4, LED_ENABLE), (12, 5, LED_ENABLE),
    -- R
    (14, 2, LED_ENABLE), (14, 3, LED_ENABLE), (14, 4, LED_ENABLE), (14, 5, LED_ENABLE),
    (14, 6, LED_ENABLE),
    (15, 2, LED_ENABLE), (15, 4, LED_ENABLE),
    (16, 2, LED_ENABLE), (16, 4, LED_ENABLE), (16, 5, LED_ENABLE),
    (17, 2, LED_ENABLE), (17, 4, LED_ENABLE), (17, 6, LED_ENABLE),
    (18, 3, LED_ENABLE),
    -- L
    (20, 2, LED_ENABLE), (20, 3, LED_ENABLE), (20, 4, LED_ENABLE), (20, 5, LED_ENABLE),
    (20, 6, LED_ENABLE),
    (21, 6, LED_ENABLE),
    (22, 6, LED_ENABLE),
    (23, 6, LED_ENABLE),
    (24, 6, LED_ENABLE),
    -- D
    (26, 2, LED_ENABLE), (26, 3, LED_ENABLE), (26, 4, LED_ENABLE), (26, 5, LED_ENABLE),
    (26, 6, LED_ENABLE),
    (27, 2, LED_ENABLE), (27, 6, LED_ENABLE),
    (28, 2, LED_ENABLE), (28, 6, LED_ENABLE),
    (29, 2, LED_ENABLE), (29, 6, LED_ENABLE),
    (30, 3, LED_ENABLE), (30, 4, LED_ENABLE), (30, 5, LED_ENABLE) ]

/-- A straight-line run of `update_led` calls. -/
def update_leds : List (Nat × Nat × Nat) → Machine → Machine
  | [], m => m
  | (x, y, enable) :: rest, m => update_leds rest (update_led x y enable m)

/-- The statements
`*led_manager_control_reg = cmd; while (((*led_manager_status_reg) & STATUS_READY) == 0) ;`
of lines 96-98, 193-195, 206-208 and 306-308. -/
def command_and_wait_ready (p : Platform) (cmd : Nat) (fuel : Nat) (m : Machine) :
    Option Machine :=
  wait_status p STATUS_READY fuel (write_control cmd m)

def write_hello_world (p : Platform) (fuel : Nat) (m : Machine) : Option Machine :=
  (command_and_wait_ready p CMD_RESET fuel m).bind fun m1 =>
  (command_and_wait_ready p CMD_UPDATE fuel (update_leds hello_calls m1)).bind fun m2 =>
  (wait_one_second p fuel m2).bind fun m3 =>
  (command_and_wait_ready p CMD_RESET fuel m3).bind fun m4 =>
  (command_and_wait_ready p CMD_UPDATE fuel (update_leds world_calls m4)).bind fun m5 =>
  wait_one_second p fuel m5

/-! ## Program entry (lines 53-73) -/

/-- The first `n` iterations of `while(1) { write_hello_world(); }`. -/
def main_loop (p : Platform) (fuel : Nat) : Nat → Machine → Option Machine
  | 0, m => some m
  | n + 1, m => (write_hello_world p fuel m).bind (main_loop p fuel n)

/-- The program up to the end of the `n`-th iteration of its endless loop. -/
def main (p : Platform) (fuel : Nat) (n : Nat) : Option Machine :=
  (initialize_display p fuel Machine.start).bind (main_loop p fuel n)

/-! ## Observers used in the statements -/

/-- The `width` bits of `w` starting at bit `lo`. -/
def bit_field (w lo width : Nat) : Nat := (w >>> lo) % 2 ^ width

/-- The status reads number `n0`, `n0 + 1`, ..., `n0 + n - 1`, as trace entries. -/
def status_reads_from (p : Platform) (n0 : Nat) : Nat → List Access
  | 0 => []
  | n + 1 => Access.status_read (p.status n0) :: status_reads_from p (n0 + 1) n

/-- A machine seen through bit 1 (`STATUS_READY`) of its status reads only. -/
def ready_view (m : Machine) : Machine :=
  { m with trace := m.trace.map fun a =>
      match a with
      | Access.status_read v => Access.status_read (v &&& STATUS_READY)
      | a => a }

/-- Status reads with bit 1 set and bit 0 clear twice, then bit 0 set alone
twice, then both bits; time counts calls, and a hold ends after two ticks. -/
def slow_platform : Platform :=
  ⟨fun i => if i < 2 then 2 else if i < 4 then 1 else 3, fun i => i, fun d => decide (d < 2)⟩

/-- The status stream of `slow_platform` with bit 0 of every read flipped. -/
def flipped_status : Nat → Nat :=
  fun i => if i < 2 then 3 else if i < 4 then 0 else 2

/-- The register writes of a trace, status reads dropped. -/
def register_writes : List Access → List Access
  | [] => []
  | Access.control_write c :: t => Access.control_write c :: register_writes t
  | Access.data_write v :: t => Access.data_write v :: register_writes t
  | Access.status_read _ :: t => register_writes t

/-- The commands written to the control register, in order. -/
def control_writes : List Access → List Nat
  | [] => []
  | Access.control_write c :: t => c :: control_writes t
  | Access.data_write _ :: t => control_writes t
  | Access.status_read _ :: t => control_writes t

/-- A trace cut at its control writes: the data words written before the
first control write, then each command with the data words written after it
and before the next control write. -/
def frames : List Access → List Nat × List (Nat × List Nat)
  | [] => ([], [])
  | Access.control_write c :: t => ([], (c, (frames t).1) :: (frames t).2)
  | Access.data_write v :: t => (v :: (frames t).1, (frames t).2)
  | Access.status_read _ :: t => frames t

/-- The status bit that acknowledges a command: `STATUS_INITIALIZED` for
`CMD_INITIALIZE`, `STATUS_READY` for the other commands. -/
def completion_bit (cmd : Nat) : Nat :=
  if cmd = CMD_INITIALIZE then STATUS_INITIALIZED else STATUS_READY

/-- Where the command handshake stands: no command outstanding, a command
waiting for the given status bit, or a register written while a command was
outstanding. -/
inductive Handshake where
  | idle
  | pending (mask : Nat)
  | violated
  deriving DecidableEq, Repr

def handshake_step : Handshake → Access → Handshake
  | Handshake.idle, Access.control_write c => Handshake.pending (completion_bit c)
  | Handshake.idle, Access.data_write _ => Handshake.idle
  | Handshake.idle, Access.status_read _ => Handshake.idle
  | Handshake.pending mask, Access.status_read v =>
    if v &&& mask = 0 then Handshake.pending mask else Handshake.idle
  | Handshake.pending _, Access.control_write _ => Handshake.violated
  | Handshake.pending _, Access.data_write _ => Handshake.violated
  | Handshake.violated, _ => Handshake.violated

def handshake_run (h : Handshake) (t : List Access) : Handshake :=
  t.foldl handshake_step h

/-- Every control write of the trace is followed by status reads up to one
that shows its completion bit, before any further register write. -/
def handshake_ok (t : List Access) : Prop :=
  handshake_run Handshake.idle t = Handshake.idle

instance (t : List Access) : Decidable (handshake_ok t) :=
  inferInstanceAs (Decidable (handshake_run Handshake.idle t = Handshake.idle))

/-- The data word of the call `update_led(x, y, enable)`. -/
def call_word (c : Nat × Nat × Nat) : Nat :=
  led_word (c.1 / 8) (c.1 % 8) c.2.1 c.2.2

/-- The register writes of one call of `write_hello_world`. -/
def cycle_writes : List Access :=
  [Access.control_write CMD_RESET] ++ (hello_calls.map call_word).map Access.data_write
    ++ [Access.control_write CMD_UPDATE]
    ++ [Access.control_write CMD_RESET] ++ (world_calls.map call_word).map Access.data_write
    ++ [Access.control_write CMD_UPDATE]

/-- Every poll for `STATUS_READY` eventually sees bit 1 set. -/
def ready_infinitely_often (p : Platform) : Prop :=
  ∀ i, ∃ j, i ≤ j ∧ (p.status j).testBit 1 = true

/-- The poll for `STATUS_INITIALIZED` eventually sees bit 0 set. -/
def eventually_initialized (p : Platform) : Prop :=
  ∃ j, (p.status j).testBit 0 = true

/-- Every timed hold ends: after the reading number `i` of the time source a
later reading number `j` fails the test "less than one second". -/
def hold_always_ends (p : Platform) : Prop :=
  ∀ i, ∃ j, i < j ∧
    p.under_one_second ((p.time j % 2 ^ 64 + 2 ^ 64 - p.time i % 2 ^ 64) % 2 ^ 64) = false

/-- The (x, y) pairs the specification lists for "Hello", letter by letter. -/
def spec_hello_pixels : List (Nat × Nat) :=
  [ (1,1),(1,2),(1,3),(1,4),(1,5),(2,3),(3,3),(4,3),(5,1),(5,2),(5,3),(5,4),(5,5),
    (7,1),(7,2),(7,3),(7,4),(7,5),(8,1),(8,3),(8,5),(9,1),(9,3),(9,5),(10,1),(10,3),(10,5),
    (11,1),(11,5),
    (13,1),(13,2),(13,3),(13,4),(13,5),(14,5),(15,5),(16,5),(17,5),
    (19,1),(19,2),(19,3),(19,4),(19,5),(20,5),(21,5),(22,5),(23,5),
    (25,2),(25,3),(25,4),(26,1),(26,5),(27,1),(27,5),(28,1),(28,5),(29,2),(29,3),(29,4) ]

/-- The (x, y) pairs the specification lists for "World", letter by letter. -/
def spec_world_pixels : List (Nat × Nat) :=
  [ (2,2),(2,3),(2,4),(2,5),(2,6),(3,5),(4,4),(5,5),(6,2),(6,3),(6,4),(6,5),(6,6),
    (8,3),(8,4),(8,5),(9,2),(9,6),(10,2),(10,6),(11,2),(11,6),(12,3),(12,4),(12,5),
    (14,2),(14,3),(14,4),(14,5),(14,6),(15,2),(15,4),(16,2),(16,4),(16,5),(17,2),(17,4),
    (17,6),(18,3),
    (20,2),(20,3),(20,4),(20,5),(20,6),(21,6),(22,6),(23,6),(24,6),
    (26,2),(26,3),(26,4),(26,5),(26,6),(27,2),(27,6),(28,2),(28,6),(29,2),(29,6),(30,3),
    (30,4),(30,5) ]

/-- The word the specification assigns to an enabled global pixel `(x, y)`:
the encoding of panel `x / 8`, local x `x % 8`, `y`, enable `0x00010000`. -/
def spec_pixel_word (c : Nat × Nat) : Nat :=
  led_word (c.1 / 8) (c.1 % 8) c.2 0x00010000

/-- What a run from `m` to `m1` added to the trace: its register writes are
`W`, and it leaves the command handshake idle. -/
def Effect (m m1 : Machine) (W : List Access) : Prop :=
  ∃ t, m1.trace = m.trace ++ t ∧ register_writes t = W
    ∧ handshake_run Handshake.idle t = Handshake.idle

/-- The values `tEnd` takes in the hold loop entered with `tEnd` in state `m`:
the entry value, then the following readings of the time source. -/
def hold_reading (p : Platform) (tEnd : Nat) (m : Machine) : Nat → Nat
  | 0 => tEnd
  | i + 1 => p.time (m.time_reads + i) % 2 ^ 64

/-- The frames of one call of `write_hello_world`. -/
def cycle_frames : List (Nat × List Nat) :=
  [(CMD_RESET, hello_calls.map call_word), (CMD_UPDATE, []),
   (CMD_RESET, world_calls.map call_word), (CMD_UPDATE, [])]

/-! ## The encoding -/

theorem led_word_eq_add (panel x y e : Nat) (hp : panel < 256) (hx : x < 8) (hy : y < 32) :
    led_word panel x y (2 ^ 16 * e) = 2 ^ 16 * e + (2 ^ 8 * panel + (2 ^ 3 * y + x)) := by
  unfold led_word
  have h1 : (panel <<< 8) % 2 ^ 32 = 2 ^ 8 * panel := by
    rw [Nat.shiftLeft_eq, Nat.mod_eq_of_lt (by omega)]; omega
  have h2 : (y <<< 3) % 2 ^ 32 = 2 ^ 3 * y := by
    rw [Nat.shiftLeft_eq, Nat.mod_eq_of_lt (by omega)]; omega
  rw [h1, h2, Nat.or_assoc (2 ^ 8 * panel), ← Nat.mul_add_lt_is_or (by omega) y,
    ← Nat.mul_add_lt_is_or (by omega) panel, Nat.or_comm, ← Nat.mul_add_lt_is_or (by omega) e]

theorem led_word_enable (panel x y : Nat) (hp : panel < 256) (hx : x < 8) (hy : y < 32) :
    led_word panel x y LED_ENABLE = 65536 + (256 * panel + (8 * y + x)) := by
  have h := led_word_eq_add panel x y 1 hp hx hy
  simpa [LED_ENABLE] using h

theorem led_word_disable (panel x y : Nat) (hp : panel < 256) (hx : x < 8) (hy : y < 32) :
    led_word panel x y LED_DISABLE = 256 * panel + (8 * y + x) := by
  have h := led_word_eq_add panel x y 0 hp hx hy
  simpa [LED_DISABLE] using h

theorem testBit_led_word_disable (panel x y : Nat) :
    (led_word panel x y LED_DISABLE).testBit 16
      = (panel.testBit 8 || y.testBit 13 || x.testBit 16) := by
  simp only [led_word, LED_DISABLE, Nat.testBit_or, Nat.testBit_mod_two_pow,
    Nat.testBit_shiftLeft]
  simp

/-- C1: for panel in [0,7], local x in [0,7], y in [0,31] and enable one of
`LED_ENABLE`, `LED_DISABLE`, the word `update_led_by_panel` writes to the data
register has bits 2:0 = x, bits 7:3 = y, bits 10:8 = panel, bit 16 set exactly
when enable is `0x00010000`, bits 15:11 and 31:17 zero; and the word for
panel 2, x 3, y 5, enabled is `0x1022B`. -/
theorem update_led_by_panel_layout (panel x y enable : Nat) (m : Machine)
    (hp : panel ≤ 7) (hx : x ≤ 7) (hy : y ≤ 31)
    (he : enable = 0x00010000 ∨ enable = 0x0) :
    ∃ w, update_led_by_panel panel x y enable m = write_data w m
      ∧ bit_field w 0 3 = x ∧ bit_field w 3 5 = y ∧ bit_field w 8 3 = panel
      ∧ (w.testBit 16 = true ↔ enable = 0x00010000)
      ∧ bit_field w 11 5 = 0 ∧ bit_field w 17 15 = 0 ∧ w < 2 ^ 32
      ∧ update_led_by_panel 2 3 5 0x00010000 m = write_data 0x1022B m := by
  refine ⟨led_word panel x y enable, rfl, ?_⟩
  have hsum : led_word panel x y enable = enable + (256 * panel + (8 * y + x)) := by
    rcases he with he | he
    · subst he; exact led_word_enable panel x y (by omega) (by omega) (by omega)
    · subst he
      simpa [LED_DISABLE] using led_word_disable panel x y (by omega) (by omega) (by omega)
  have hlit : led_word 2 3 5 0x00010000 = 0x1022B := by decide
  simp only [update_led_by_panel, hlit, bit_field, Nat.shiftRight_eq_div_pow,
    Nat.testBit_to_div_mod, hsum, decide_eq_true_eq, and_true]
  rcases he with he | he <;> subst he <;> omega

/-- Witness for C1 at panel 2, x 3, y 5, enabled. -/
theorem update_led_by_panel_layout_witness :
    ∃ w, update_led_by_panel 2 3 5 0x00010000 Machine.start = write_data w Machine.start
      ∧ bit_field w 0 3 = 3 ∧ bit_field w 3 5 = 5 ∧ bit_field w 8 3 = 2
      ∧ (w.testBit 16 = true ↔ 0x00010000 = 0x00010000)
      ∧ bit_field w 11 5 = 0 ∧ bit_field w 17 15 = 0 ∧ w < 2 ^ 32
      ∧ update_led_by_panel 2 3 5 0x00010000 Machine.start = write_data 0x1022B Machine.start :=
  update_led_by_panel_layout 2 3 5 0x00010000 Machine.start (by decide) (by decide) (by decide)
    (Or.inl rfl)

/-- C2 fails as stated: with panel 256 (a 32-bit value), x 0, y 0 and
`LED_DISABLE`, `update_led_by_panel` writes `0x10000`, whose bit 16 is set;
`update_led` does the same for x 2048, y 0. -/
theorem led_disable_bit16_counterexample :
    256 < 2 ^ 32 ∧ 2048 < 2 ^ 32
      ∧ update_led_by_panel 256 0 0 LED_DISABLE Machine.start = write_data 0x10000 Machine.start
      ∧ update_led 2048 0 LED_DISABLE Machine.start = write_data 0x10000 Machine.start
      ∧ Nat.testBit 0x10000 16 = true := by
  decide

/-- C2 (amended): the word `update_led_by_panel panel x y LED_DISABLE` writes
has bit 16 equal to bit 8 of panel, or bit 13 of y, or bit 16 of x; the word
`update_led x y LED_DISABLE` writes has bit 16 equal to bit 11 of x or bit 13
of y. So bit 16 is clear when panel < 256, y < 8192, x < 65536, respectively
when x < 2048 and y < 8192. -/
theorem led_disable_bit16 (panel x y : Nat) (m : Machine) :
    (∃ w, update_led_by_panel panel x y LED_DISABLE m = write_data w m
      ∧ w.testBit 16 = (panel.testBit 8 || y.testBit 13 || x.testBit 16)
      ∧ (panel < 256 → y < 8192 → x < 65536 → w.testBit 16 = false))
    ∧ (∃ w, update_led x y LED_DISABLE m = write_data w m
      ∧ w.testBit 16 = (x.testBit 11 || y.testBit 13)
      ∧ (x < 2048 → y < 8192 → w.testBit 16 = false)) := by
  have lo : ∀ {a i : Nat}, a < 2 ^ i → a.testBit i = false :=
    fun h => Nat.testBit_lt_two_pow h
  refine ⟨⟨_, rfl, testBit_led_word_disable panel x y, ?_⟩,
    ⟨led_word (x / 8) (x % 8) y LED_DISABLE, rfl, ?_, ?_⟩⟩
  · intro hp hy hx
    rw [testBit_led_word_disable, lo (i := 8) hp, lo (i := 13) hy, lo (i := 16) hx]
    rfl
  · have h8 : (x / 8).testBit 8 = x.testBit 11 := by
      have := Nat.testBit_shiftRight (i := 3) (j := 8) x
      simpa [Nat.shiftRight_eq_div_pow] using this
    have h16 : (x % 8).testBit 16 = false := lo (by omega)
    rw [testBit_led_word_disable, h8, h16, Bool.or_false]
  · intro hx hy
    have h8 : (x / 8).testBit 8 = false := lo (i := 8) (by omega)
    have h16 : (x % 8).testBit 16 = false := lo (by omega)
    rw [testBit_led_word_disable, h8, h16, lo (i := 13) hy]
    rfl

/-- C3: for a global x in [0,63], `update_led x y enable` performs exactly
the write of `update_led_by_panel (x / 8) (x % 8) y enable`, where the
quotient is a panel in [0,7] and the remainder a local x in [0,7], and
8 * panel + local x = x. -/
theorem update_led_delegates (x y enable : Nat) (m : Machine) (hx : x ≤ 63) :
    update_led x y enable m = update_led_by_panel (x / 8) (x % 8) y enable m
      ∧ (∃ w, update_led x y enable m = write_data w m
          ∧ update_led_by_panel (x / 8) (x % 8) y enable m = write_data w m)
      ∧ x / 8 ≤ 7 ∧ x % 8 ≤ 7 ∧ 8 * (x / 8) + x % 8 = x := by
  refine ⟨rfl, ⟨_, rfl, rfl⟩, ?_, ?_, ?_⟩ <;> omega

/-- Witness for C3 at x 29, y 4, enabled: panel 3, local x 5. -/
theorem update_led_delegates_witness :
    update_led 29 4 LED_ENABLE Machine.start
        = update_led_by_panel (29 / 8) (29 % 8) 4 LED_ENABLE Machine.start
      ∧ (∃ w, update_led 29 4 LED_ENABLE Machine.start = write_data w Machine.start
          ∧ update_led_by_panel (29 / 8) (29 % 8) 4 LED_ENABLE Machine.start
              = write_data w Machine.start)
      ∧ 29 / 8 ≤ 7 ∧ 29 % 8 ≤ 7 ∧ 8 * (29 / 8) + 29 % 8 = 29 :=
  update_led_delegates 29 4 LED_ENABLE Machine.start (by decide)

/-- C9: `update_led_by_panel` has no range check: x 8, y 0 writes the same
word as x 0, y 1, and panel 0, y 32 the same word as panel 1, y 0, for every
other argument; so the encoding is not injective on 32-bit inputs, while it
is injective on panel in [0,7], x in [0,7], y in [0,31] (with enable one of
`LED_ENABLE`, `LED_DISABLE`). -/
theorem update_led_by_panel_aliasing :
    (∀ panel enable m,
        update_led_by_panel panel 8 0 enable m = update_led_by_panel panel 0 1 enable m)
    ∧ (∀ x enable m,
        update_led_by_panel 0 x 32 enable m = update_led_by_panel 1 x 0 enable m)
    ∧ (∃ a b : Nat × Nat × Nat × Nat,
        a.1 < 2 ^ 32 ∧ a.2.1 < 2 ^ 32 ∧ a.2.2.1 < 2 ^ 32 ∧ a.2.2.2 < 2 ^ 32
        ∧ b.1 < 2 ^ 32 ∧ b.2.1 < 2 ^ 32 ∧ b.2.2.1 < 2 ^ 32 ∧ b.2.2.2 < 2 ^ 32
        ∧ a ≠ b ∧ led_word a.1 a.2.1 a.2.2.1 a.2.2.2 = led_word b.1 b.2.1 b.2.2.1 b.2.2.2)
    ∧ (∀ p x y e p' x' y' e', p ≤ 7 → x ≤ 7 → y ≤ 31 → p' ≤ 7 → x' ≤ 7 → y' ≤ 31 →
        (e = LED_ENABLE ∨ e = LED_DISABLE) → (e' = LED_ENABLE ∨ e' = LED_DISABLE) →
        led_word p x y e = led_word p' x' y' e' → p = p' ∧ x = x' ∧ y = y' ∧ e = e') := by
  refine ⟨?_, ?_, ⟨(0, 8, 0, 0), (0, 0, 1, 0), by decide⟩, ?_⟩
  · intro panel enable m
    simp [update_led_by_panel, led_word]
  · intro x enable m
    simp [update_led_by_panel, led_word]
  · intro p x y e p' x' y' e' hp hx hy hp' hx' hy' he he' h
    have s1 : ∀ q u v f, q ≤ 7 → u ≤ 7 → v ≤ 31 → (f = LED_ENABLE ∨ f = LED_DISABLE) →
        led_word q u v f = f + (256 * q + (8 * v + u)) := by
      intro q u v f hq hu hv hf
      rcases hf with hf | hf
      · subst hf
        simpa [LED_ENABLE] using led_word_enable q u v (by omega) (by omega) (by omega)
      · subst hf
        simpa [LED_DISABLE] using led_word_disable q u v (by omega) (by omega) (by omega)
    rw [s1 p x y e hp hx hy he, s1 p' x' y' e' hp' hx' hy' he'] at h
    simp only [LED_ENABLE, LED_DISABLE] at he he'
    rcases he with he | he <;> rcases he' with he' | he' <;> subst he <;> subst he' <;> omega

/-! ## Polling -/

theorem and_initialized_eq_zero (v : Nat) : v &&& STATUS_INITIALIZED = 0 ↔ v.testBit 0 = false := by
  simp [STATUS_INITIALIZED, Nat.testBit_zero]

theorem and_ready_eq_zero (v : Nat) : v &&& STATUS_READY = 0 ↔ v.testBit 1 = false := by
  have h := Nat.and_two_pow v 1
  simp only [pow_one] at h
  rw [STATUS_READY, h]
  cases v.testBit 1 <;> simp

/-- With the first read that passes the mask at offset `k`, a poll with more
than `k` units of fuel performs `k + 1` reads and returns. -/
theorem wait_status_first (p : Platform) (mask : Nat) :
    ∀ (k fuel : Nat) (m : Machine), k < fuel →
      p.status (m.status_reads + k) &&& mask ≠ 0 →
      (∀ j < k, p.status (m.status_reads + j) &&& mask = 0) →
      wait_status p mask fuel m
        = some ⟨m.status_reads + (k + 1), m.time_reads,
            m.trace ++ status_reads_from p m.status_reads (k + 1)⟩ := by
  intro k
  induction k with
  | zero =>
    intro fuel m hf hset _
    obtain ⟨f, rfl⟩ : ∃ f, fuel = f + 1 := ⟨fuel - 1, by omega⟩
    simp only [Nat.add_zero] at hset
    simp [wait_status, read_status, hset, status_reads_from]
  | succ k ih =>
    intro fuel m hf hset hclear
    obtain ⟨f, rfl⟩ : ∃ f, fuel = f + 1 := ⟨fuel - 1, by omega⟩
    have h0 : (read_status p m).1 &&& mask = 0 := by simpa using hclear 0 (by omega)
    have hset' : p.status (m.status_reads + 1 + k) &&& mask ≠ 0 := by
      rwa [Nat.add_assoc, Nat.add_comm 1 k]
    have hclear' : ∀ j < k, p.status (m.status_reads + 1 + j) &&& mask = 0 := by
      intro j hj
      have := hclear (j + 1) (by omega)
      rwa [Nat.add_assoc, Nat.add_comm 1 j]
    have := ih f (read_status p m).2 (by omega) hset' hclear'
    rw [wait_status, if_pos h0, this]
    simp [read_status, status_reads_from, Nat.add_assoc, Nat.add_comm 1]

/-- While every read so far fails the mask, a poll has not returned. -/
theorem wait_status_none (p : Platform) (mask : Nat) :
    ∀ (fuel : Nat) (m : Machine),
      (∀ j < fuel, p.status (m.status_reads + j) &&& mask = 0) →
      wait_status p mask fuel m = none := by
  intro fuel
  induction fuel with
  | zero => intro m _; rfl
  | succ f ih =>
    intro m hclear
    have h0 : (read_status p m).1 &&& mask = 0 := by simpa using hclear 0 (by omega)
    rw [wait_status, if_pos h0]
    apply ih
    intro j hj
    have := hclear (j + 1) (by omega)
    simpa [read_status, Nat.add_assoc, Nat.add_comm 1 j] using this

/-- C4: `initialize_display` writes `CMD_INITIALIZE` (0x2) to the control
register and then, if the read at offset `k` is the first with bit 0 set,
performs exactly `k + 1` status reads and returns, whatever bit 1 is in any
read; it makes no other register access, and it has not returned after `k`
or fewer reads. -/
theorem initialize_display_polls (p : Platform) (m : Machine) (k : Nat)
    (hset : (p.status (m.status_reads + k)).testBit 0 = true)
    (hclear : ∀ j < k, (p.status (m.status_reads + j)).testBit 0 = false) :
    (∀ fuel, k < fuel →
      initialize_display p fuel m
        = some ⟨m.status_reads + (k + 1), m.time_reads,
            m.trace ++ Access.control_write 0x2 :: status_reads_from p m.status_reads (k + 1)⟩)
    ∧ (∀ fuel, fuel ≤ k → initialize_display p fuel m = none) := by
  constructor
  · intro fuel hf
    have h := wait_status_first p STATUS_INITIALIZED k fuel (write_control CMD_INITIALIZE m) hf
      (by rw [Ne, and_initialized_eq_zero]; simpa [write_control] using hset)
      (fun j hj => (and_initialized_eq_zero _).2 (hclear j hj))
    simpa [initialize_display, write_control, CMD_INITIALIZE] using h
  · intro fuel hf
    exact wait_status_none p STATUS_INITIALIZED fuel (write_control CMD_INITIALIZE m)
      (fun j hj => (and_initialized_eq_zero _).2 (hclear j (by omega)))

/-- Witness for C4: two reads with only bit 1 set precede the first read with
bit 0 set; three reads are made, and two units of fuel do not suffice. -/
theorem initialize_display_polls_witness :
    initialize_display slow_platform 3 Machine.start
        = some ⟨3, 0, [Access.control_write 2, Access.status_read 2, Access.status_read 2,
            Access.status_read 1]⟩
      ∧ initialize_display slow_platform 2 Machine.start = none :=
  ⟨(initialize_display_polls slow_platform Machine.start 2 (by decide) (by decide)).1 3
      (by decide),
   (initialize_display_polls slow_platform Machine.start 2 (by decide) (by decide)).2 2
      (by decide)⟩

/-! ## Independence of the ready polls from bit 0 -/

theorem map_bind_congr {v : Machine → Machine} {o1 o2 : Option Machine}
    {f g : Machine → Option Machine} (h : o1.map v = o2.map v)
    (hfg : ∀ a b, v a = v b → (f a).map v = (g b).map v) :
    (o1.bind f).map v = (o2.bind g).map v := by
  cases o1 <;> cases o2 <;> simp at h ⊢
  exact hfg _ _ h

theorem ready_view_write_control (cmd : Nat) {a b : Machine} (h : ready_view a = ready_view b) :
    ready_view (write_control cmd a) = ready_view (write_control cmd b) := by
  simp only [ready_view, write_control, List.map_append, Machine.mk.injEq] at h ⊢
  simp [h]

theorem ready_view_update_leds (calls : List (Nat × Nat × Nat)) :
    ∀ {a b : Machine}, ready_view a = ready_view b →
      ready_view (update_leds calls a) = ready_view (update_leds calls b) := by
  induction calls with
  | nil => intro a b h; exact h
  | cons c rest ih =>
    intro a b h
    obtain ⟨x, y, e⟩ := c
    apply ih
    simp only [ready_view, update_led, update_led_by_panel, write_data, List.map_append,
      Machine.mk.injEq] at h ⊢
    simp [h]

theorem ready_view_wait_status (p : Platform) (s : Nat → Nat)
    (hagree : ∀ i, s i &&& STATUS_READY = p.status i &&& STATUS_READY) :
    ∀ (fuel : Nat) (a b : Machine), ready_view a = ready_view b →
      (wait_status { p with status := s } STATUS_READY fuel a).map ready_view
        = (wait_status p STATUS_READY fuel b).map ready_view := by
  intro fuel
  induction fuel with
  | zero => intro a b _; rfl
  | succ f ih =>
    intro a b h
    have hr : a.status_reads = b.status_reads :=
      @congrArg _ _ (ready_view a) (ready_view b) Machine.status_reads h
    have hnext : ready_view (read_status { p with status := s } a).2
        = ready_view (read_status p b).2 := by
      simp only [ready_view, read_status, List.map_append, Machine.mk.injEq] at h ⊢
      simp [h, hr, hagree]
    have hv : (read_status { p with status := s } a).1 &&& STATUS_READY
        = (read_status p b).1 &&& STATUS_READY := by
      simp [read_status, hr, hagree]
    rw [wait_status, wait_status, hv]
    by_cases h0 : (read_status p b).1 &&& STATUS_READY = 0
    · rw [if_pos h0, if_pos h0]; exact ih _ _ hnext
    · rw [if_neg h0, if_neg h0]; simp [hnext]

theorem ready_view_hold_loop (p : Platform) (s : Nat → Nat) (tStart : Nat) :
    ∀ (fuel tEnd : Nat) (a b : Machine), ready_view a = ready_view b →
      (hold_loop { p with status := s } tStart fuel tEnd a).map ready_view
        = (hold_loop p tStart fuel tEnd b).map ready_view := by
  intro fuel
  induction fuel with
  | zero => intro tEnd a b _; rfl
  | succ f ih =>
    intro tEnd a b h
    have ht : a.time_reads = b.time_reads :=
      @congrArg _ _ (ready_view a) (ready_view b) Machine.time_reads h
    rw [hold_loop, hold_loop]
    by_cases hu : p.under_one_second ((tEnd + 2 ^ 64 - tStart) % 2 ^ 64) = true
    · rw [if_pos hu, if_pos hu]
      have hnext : ready_view (get_time { p with status := s } a).2
          = ready_view (get_time p b).2 := by
        simp only [ready_view, get_time, Machine.mk.injEq] at h ⊢
        simp [h, ht]
      have hval : (get_time { p with status := s } a).1 = (get_time p b).1 := by
        simp [get_time, ht]
      rw [hval]
      exact ih _ _ _ hnext
    · rw [if_neg hu, if_neg hu]; simp [h]

theorem ready_view_wait_one_second (p : Platform) (s : Nat → Nat) (fuel : Nat)
    {a b : Machine} (h : ready_view a = ready_view b) :
    (wait_one_second { p with status := s } fuel a).map ready_view
      = (wait_one_second p fuel b).map ready_view := by
  have ht : a.time_reads = b.time_reads :=
    @congrArg _ _ (ready_view a) (ready_view b) Machine.time_reads h
  have h1 : ready_view (get_time { p with status := s } a).2 = ready_view (get_time p b).2 := by
    simp only [ready_view, get_time, Machine.mk.injEq] at h ⊢
    simp [h, ht]
  have h2 : ready_view (get_time { p with status := s } (get_time { p with status := s } a).2).2
      = ready_view (get_time p (get_time p b).2).2 := by
    simp only [ready_view, get_time, Machine.mk.injEq] at h ⊢
    simp [h, ht]
  have v1 : (get_time { p with status := s } a).1 = (get_time p b).1 := by
    simp [get_time, ht]
  have v2 : (get_time { p with status := s } (get_time { p with status := s } a).2).1
      = (get_time p (get_time p b).2).1 := by
    simp [get_time, ht]
  rw [wait_one_second, wait_one_second, v1, v2]
  exact ready_view_hold_loop p s _ fuel _ _ _ h2

theorem ready_view_command_and_wait_ready (p : Platform) (s : Nat → Nat)
    (hagree : ∀ i, s i &&& STATUS_READY = p.status i &&& STATUS_READY)
    (cmd fuel : Nat) {a b : Machine} (h : ready_view a = ready_view b) :
    (command_and_wait_ready { p with status := s } cmd fuel a).map ready_view
      = (command_and_wait_ready p cmd fuel b).map ready_view :=
  ready_view_wait_status p s hagree fuel _ _ (ready_view_write_control cmd h)

theorem ready_view_write_hello_world (p : Platform) (s : Nat → Nat)
    (hagree : ∀ i, s i &&& STATUS_READY = p.status i &&& STATUS_READY)
    (fuel : Nat) {a b : Machine} (h : ready_view a = ready_view b) :
    (write_hello_world { p with status := s } fuel a).map ready_view
      = (write_hello_world p fuel b).map ready_view := by
  unfold write_hello_world
  refine map_bind_congr (ready_view_command_and_wait_ready p s hagree _ fuel h) ?_
  intro a1 b1 h1
  refine map_bind_congr
    (ready_view_command_and_wait_ready p s hagree _ fuel (ready_view_update_leds _ h1)) ?_
  intro a2 b2 h2
  refine map_bind_congr (ready_view_wait_one_second p s fuel h2) ?_
  intro a3 b3 h3
  refine map_bind_congr (ready_view_command_and_wait_ready p s hagree _ fuel h3) ?_
  intro a4 b4 h4
  refine map_bind_congr
    (ready_view_command_and_wait_ready p s hagree _ fuel (ready_view_update_leds _ h4)) ?_
  intro a5 b5 h5
  exact ready_view_wait_one_second p s fuel h5

theorem and_ready_congr {u v : Nat} (h : u.testBit 1 = v.testBit 1) :
    u &&& STATUS_READY = v &&& STATUS_READY := by
  have hu := Nat.and_two_pow u 1
  have hv := Nat.and_two_pow v 1
  simp only [pow_one] at hu hv
  rw [STATUS_READY, hu, hv, h]

/-- C5: a reset step (`CMD_RESET` = 0x4) and a commit step (`CMD_UPDATE` =
0x1) of `write_hello_world` each write the command and then poll up to and
including the first read with bit 1 set (offset `k`), not before; a status
stream that agrees on bit 1 of every read gives the same `k + 1` reads, and
the whole of `write_hello_world` behaves the same up to bit 0 of the values
read. -/
theorem ready_polls_ignore_initialized (p : Platform) (s : Nat → Nat) (m : Machine) (k : Nat)
    (hset : (p.status (m.status_reads + k)).testBit 1 = true)
    (hclear : ∀ j < k, (p.status (m.status_reads + j)).testBit 1 = false)
    (hagree : ∀ i, (s i).testBit 1 = (p.status i).testBit 1) :
    (∀ cmd, cmd = 0x4 ∨ cmd = 0x1 → ∀ fuel,
      (k < fuel → command_and_wait_ready p cmd fuel m
        = some ⟨m.status_reads + (k + 1), m.time_reads,
            m.trace ++ Access.control_write cmd :: status_reads_from p m.status_reads (k + 1)⟩)
      ∧ (fuel ≤ k → command_and_wait_ready p cmd fuel m = none)
      ∧ (k < fuel → command_and_wait_ready { p with status := s } cmd fuel m
        = some ⟨m.status_reads + (k + 1), m.time_reads,
            m.trace ++ Access.control_write cmd
              :: status_reads_from { p with status := s } m.status_reads (k + 1)⟩)
      ∧ (fuel ≤ k → command_and_wait_ready { p with status := s } cmd fuel m = none))
    ∧ (∀ fuel, (write_hello_world { p with status := s } fuel m).map ready_view
        = (write_hello_world p fuel m).map ready_view) := by
  have key : ∀ (q : Platform), (∀ i, (q.status i).testBit 1 = (p.status i).testBit 1) →
      ∀ cmd fuel,
      (k < fuel → command_and_wait_ready q cmd fuel m
        = some ⟨m.status_reads + (k + 1), m.time_reads,
            m.trace ++ Access.control_write cmd :: status_reads_from q m.status_reads (k + 1)⟩)
      ∧ (fuel ≤ k → command_and_wait_ready q cmd fuel m = none) := by
    intro q hq cmd fuel
    constructor
    · intro hf
      have h := wait_status_first q STATUS_READY k fuel (write_control cmd m) hf
        (by rw [Ne, and_ready_eq_zero]; simpa [write_control, hq] using hset)
        (fun j hj => (and_ready_eq_zero _).2 (by simpa [write_control, hq] using hclear j hj))
      simpa [command_and_wait_ready, write_control] using h
    · intro hf
      exact wait_status_none q STATUS_READY fuel (write_control cmd m)
        (fun j hj => (and_ready_eq_zero _).2
          (by simpa [write_control, hq] using hclear j (by omega)))
  refine ⟨fun cmd _ fuel => ?_, fun fuel => ?_⟩
  · have h1 := key p (fun _ => rfl) cmd fuel
    have h2 := key { p with status := s } hagree cmd fuel
    exact ⟨h1.1, h1.2, h2.1, h2.2⟩
  · exact ready_view_write_hello_world p s (fun i => and_ready_congr (hagree i)) fuel rfl

/-- Witness for C5: from the third status read of `slow_platform` the first
read with bit 1 set is at offset 2; with bit 0 of every read flipped the reset
step still makes three reads. -/
theorem ready_polls_ignore_initialized_witness :
    command_and_wait_ready slow_platform 0x4 3 ⟨2, 0, []⟩
        = some ⟨5, 0, [Access.control_write 4, Access.status_read 1, Access.status_read 1,
            Access.status_read 3]⟩
      ∧ command_and_wait_ready slow_platform 0x4 2 ⟨2, 0, []⟩ = none
      ∧ command_and_wait_ready { slow_platform with status := flipped_status } 0x4 3 ⟨2, 0, []⟩
        = some ⟨5, 0, [Access.control_write 4, Access.status_read 0, Access.status_read 0,
            Access.status_read 2]⟩
      ∧ command_and_wait_ready { slow_platform with status := flipped_status } 0x4 2 ⟨2, 0, []⟩
        = none := by
  have hagree : ∀ i, (flipped_status i).testBit 1 = (slow_platform.status i).testBit 1 := by
    intro i
    simp only [flipped_status, slow_platform]
    split_ifs <;> decide
  have h := (ready_polls_ignore_initialized slow_platform flipped_status ⟨2, 0, []⟩ 2
    (by decide) (by decide) hagree).1 0x4 (Or.inl rfl)
  exact ⟨(h 3).1 (by decide), (h 2).2.1 (by decide), (h 3).2.2.1 (by decide),
    (h 2).2.2.2 (by decide)⟩

/-! ## Traces -/

theorem register_writes_append (a b : List Access) :
    register_writes (a ++ b) = register_writes a ++ register_writes b := by
  induction a with
  | nil => rfl
  | cons x t ih => cases x <;> simp [register_writes, ih]

theorem register_writes_data (ws : List Nat) :
    register_writes (ws.map Access.data_write) = ws.map Access.data_write := by
  induction ws with
  | nil => rfl
  | cons w t ih => simp [register_writes, ih]

theorem frames_register_writes (t : List Access) : frames (register_writes t) = frames t := by
  induction t with
  | nil => rfl
  | cons x t ih => cases x <;> simp [register_writes, frames, ih]

theorem control_writes_register_writes (t : List Access) :
    control_writes (register_writes t) = control_writes t := by
  induction t with
  | nil => rfl
  | cons x t ih => cases x <;> simp [register_writes, control_writes, ih]

theorem control_writes_append (a b : List Access) :
    control_writes (a ++ b) = control_writes a ++ control_writes b := by
  induction a with
  | nil => rfl
  | cons x t ih => cases x <;> simp [control_writes, ih]

theorem frames_data_append (ws : List Nat) (rest : List Access) :
    frames (ws.map Access.data_write ++ rest) = (ws ++ (frames rest).1, (frames rest).2) := by
  induction ws with
  | nil => rfl
  | cons w t ih => simp [frames, ih]

theorem handshake_run_append (h : Handshake) (a b : List Access) :
    handshake_run h (a ++ b) = handshake_run (handshake_run h a) b := by
  simp [handshake_run, List.foldl_append]

theorem handshake_run_data (ws : List Nat) :
    handshake_run Handshake.idle (ws.map Access.data_write) = Handshake.idle := by
  induction ws with
  | nil => rfl
  | cons w t ih => simpa [handshake_run, handshake_step] using ih

theorem handshake_run_reads (p : Platform) (mask : Nat) :
    ∀ (k n0 : Nat), p.status (n0 + k) &&& mask ≠ 0 →
      (∀ j < k, p.status (n0 + j) &&& mask = 0) →
      handshake_run (Handshake.pending mask) (status_reads_from p n0 (k + 1))
        = Handshake.idle := by
  intro k
  induction k with
  | zero =>
    intro n0 hset _
    simp only [Nat.add_zero] at hset
    simp [handshake_run, status_reads_from, handshake_step, hset]
  | succ k ih =>
    intro n0 hset hclear
    have h0 : p.status n0 &&& mask = 0 := by simpa using hclear 0 (by omega)
    have := ih (n0 + 1) (by rwa [Nat.add_assoc, Nat.add_comm 1 k])
      (fun j hj => by
        have := hclear (j + 1) (by omega)
        rwa [Nat.add_assoc, Nat.add_comm 1 j])
    rw [status_reads_from]
    simpa [handshake_run, handshake_step, h0] using this

theorem register_writes_reads (p : Platform) :
    ∀ (n n0 : Nat), register_writes (status_reads_from p n0 n) = [] := by
  intro n
  induction n with
  | zero => intro n0; rfl
  | succ n ih => intro n0; simp [status_reads_from, register_writes, ih]

/-- A poll that returns made `k + 1` reads, the last of which is the first to
pass the mask. -/
theorem wait_status_some (p : Platform) (mask : Nat) :
    ∀ (fuel : Nat) (m m1 : Machine), wait_status p mask fuel m = some m1 →
      ∃ k, k < fuel ∧ p.status (m.status_reads + k) &&& mask ≠ 0
        ∧ (∀ j < k, p.status (m.status_reads + j) &&& mask = 0)
        ∧ m1 = ⟨m.status_reads + (k + 1), m.time_reads,
            m.trace ++ status_reads_from p m.status_reads (k + 1)⟩ := by
  intro fuel
  induction fuel with
  | zero => intro m m1 h; simp [wait_status] at h
  | succ f ih =>
    intro m m1 h
    rw [wait_status] at h
    by_cases h0 : (read_status p m).1 &&& mask = 0
    · rw [if_pos h0] at h
      obtain ⟨k, hk, hset, hclear, hm1⟩ := ih _ _ h
      refine ⟨k + 1, by omega, ?_, ?_, ?_⟩
      · simpa [read_status, Nat.add_assoc, Nat.add_comm 1 k] using hset
      · intro j hj
        cases j with
        | zero => simpa [read_status] using h0
        | succ j =>
          have := hclear j (by omega)
          simpa [read_status, Nat.add_assoc, Nat.add_comm 1 j] using this
      · rw [hm1]
        simp [read_status, status_reads_from, Nat.add_assoc, Nat.add_comm 1]
    · rw [if_neg h0] at h
      refine ⟨0, by omega, by simpa [read_status] using h0, by intro j hj; omega, ?_⟩
      simp only [Option.some.injEq] at h
      rw [← h]
      simp [read_status, status_reads_from]

/-! ## Effects of the operations on the trace -/

theorem Effect.refl (m : Machine) : Effect m m [] :=
  ⟨[], by simp, rfl, rfl⟩

theorem Effect.of_trace_eq {m m1 : Machine} (h : m1.trace = m.trace) : Effect m m1 [] :=
  ⟨[], by simp [h], rfl, rfl⟩

theorem Effect.trans {m m1 m2 : Machine} {W1 W2 : List Access}
    (h1 : Effect m m1 W1) (h2 : Effect m1 m2 W2) : Effect m m2 (W1 ++ W2) := by
  obtain ⟨t1, e1, w1, r1⟩ := h1
  obtain ⟨t2, e2, w2, r2⟩ := h2
  refine ⟨t1 ++ t2, by rw [e2, e1, List.append_assoc], ?_, ?_⟩
  · rw [register_writes_append, w1, w2]
  · rw [handshake_run_append, r1, r2]

theorem effect_command (p : Platform) (cmd mask fuel : Nat) (m m1 : Machine)
    (hbit : completion_bit cmd = mask)
    (h : wait_status p mask fuel (write_control cmd m) = some m1) :
    Effect m m1 [Access.control_write cmd] := by
  obtain ⟨k, -, hset, hclear, rfl⟩ := wait_status_some p mask fuel _ _ h
  refine ⟨Access.control_write cmd :: status_reads_from p m.status_reads (k + 1), ?_, ?_, ?_⟩
  · simp [write_control]
  · simp [register_writes, register_writes_reads]
  · have := handshake_run_reads p mask k m.status_reads hset hclear
    simpa [handshake_run, handshake_step, hbit] using this

theorem update_leds_trace (calls : List (Nat × Nat × Nat)) :
    ∀ m : Machine, update_leds calls m
      = { m with trace := m.trace ++ (calls.map call_word).map Access.data_write } := by
  induction calls with
  | nil => intro m; simp [update_leds]
  | cons c rest ih =>
    intro m
    obtain ⟨x, y, e⟩ := c
    rw [update_leds, ih]
    simp [update_led, update_led_by_panel, write_data, call_word]

theorem effect_update_leds (calls : List (Nat × Nat × Nat)) (m : Machine) :
    Effect m (update_leds calls m) ((calls.map call_word).map Access.data_write) := by
  refine ⟨(calls.map call_word).map Access.data_write, ?_, register_writes_data _,
    handshake_run_data _⟩
  rw [update_leds_trace]

theorem hold_loop_trace (p : Platform) (tStart : Nat) :
    ∀ (fuel tEnd : Nat) (m m1 : Machine), hold_loop p tStart fuel tEnd m = some m1 →
      m1.trace = m.trace ∧ m1.status_reads = m.status_reads := by
  intro fuel
  induction fuel with
  | zero => intro tEnd m m1 h; simp [hold_loop] at h
  | succ f ih =>
    intro tEnd m m1 h
    rw [hold_loop] at h
    split at h
    · have := ih _ _ _ h
      exact this
    · simp only [Option.some.injEq] at h
      rw [← h]
      exact ⟨rfl, rfl⟩

theorem effect_wait_one_second (p : Platform) (fuel : Nat) (m m1 : Machine)
    (h : wait_one_second p fuel m = some m1) : Effect m m1 [] :=
  Effect.of_trace_eq (hold_loop_trace p _ fuel _ _ m1 h).1

theorem effect_command_and_wait_ready (p : Platform) (cmd fuel : Nat) (m m1 : Machine)
    (hcmd : cmd ≠ CMD_INITIALIZE) (h : command_and_wait_ready p cmd fuel m = some m1) :
    Effect m m1 [Access.control_write cmd] :=
  effect_command p cmd STATUS_READY fuel m m1 (by simp [completion_bit, hcmd]) h

theorem effect_write_hello_world (p : Platform) (fuel : Nat) (m m1 : Machine)
    (h : write_hello_world p fuel m = some m1) : Effect m m1 cycle_writes := by
  simp only [write_hello_world, Option.bind_eq_some] at h
  obtain ⟨a1, h1, a2, h2, a3, h3, a4, h4, a5, h5, h6⟩ := h
  have e1 := effect_command_and_wait_ready p _ fuel m a1 (by decide) h1
  have e2 := effect_command_and_wait_ready p _ fuel _ a2 (by decide) h2
  have e3 := effect_wait_one_second p fuel a2 a3 h3
  have e4 := effect_command_and_wait_ready p _ fuel a3 a4 (by decide) h4
  have e5 := effect_command_and_wait_ready p _ fuel _ a5 (by decide) h5
  have e6 := effect_wait_one_second p fuel a5 m1 h6
  have e := (((((e1.trans (effect_update_leds hello_calls a1)).trans e2).trans e3).trans
    e4).trans (effect_update_leds world_calls a4)).trans (e5.trans e6)
  have hw : cycle_writes = [Access.control_write CMD_RESET]
      ++ (hello_calls.map call_word).map Access.data_write ++ [Access.control_write CMD_UPDATE]
      ++ [] ++ [Access.control_write CMD_RESET]
      ++ (world_calls.map call_word).map Access.data_write
      ++ ([Access.control_write CMD_UPDATE] ++ []) := by
    simp only [cycle_writes, List.append_nil]
  rw [hw]
  exact e

theorem effect_main_loop (p : Platform) (fuel : Nat) :
    ∀ (n : Nat) (m m1 : Machine), main_loop p fuel n m = some m1 →
      Effect m m1 (List.replicate n cycle_writes).flatten := by
  intro n
  induction n with
  | zero =>
    intro m m1 h
    simp only [main_loop, Option.some.injEq] at h
    rw [← h]
    exact Effect.refl m
  | succ n ih =>
    intro m m1 h
    simp only [main_loop, Option.bind_eq_some] at h
    obtain ⟨a, h1, h2⟩ := h
    have := (effect_write_hello_world p fuel m a h1).trans (ih a m1 h2)
    simpa [List.replicate_succ] using this

theorem effect_main (p : Platform) (fuel n : Nat) (m1 : Machine)
    (h : main p fuel n = some m1) :
    Effect Machine.start m1
      (Access.control_write CMD_INITIALIZE :: (List.replicate n cycle_writes).flatten) := by
  simp only [main, Option.bind_eq_some] at h
  obtain ⟨a, h1, h2⟩ := h
  have e1 := effect_command p CMD_INITIALIZE STATUS_INITIALIZED fuel Machine.start a
    (by simp [completion_bit]) h1
  exact e1.trans (effect_main_loop p fuel n a m1 h2)

/-! ## Termination of the busy-wait loops -/

theorem wait_status_settles (p : Platform) (mask : Nat) (m : Machine)
    (hex : ∃ j, m.status_reads ≤ j ∧ p.status j &&& mask ≠ 0) :
    ∃ m1 f0, ∀ fuel, f0 ≤ fuel → wait_status p mask fuel m = some m1 := by
  classical
  obtain ⟨j, hj, hjset⟩ := hex
  have hk : ∃ k, p.status (m.status_reads + k) &&& mask ≠ 0 :=
    ⟨j - m.status_reads, by rwa [Nat.add_sub_cancel' hj]⟩
  refine ⟨_, Nat.find hk + 1, fun fuel hf =>
    wait_status_first p mask (Nat.find hk) fuel m (by omega) (Nat.find_spec hk) ?_⟩
  intro i hi
  exact not_not.mp (Nat.find_min hk hi)

theorem hold_loop_settles (p : Platform) (tStart : Nat) :
    ∀ (d tEnd : Nat) (m : Machine),
      p.under_one_second ((hold_reading p tEnd m d + 2 ^ 64 - tStart) % 2 ^ 64) = false →
      ∃ m1 f0, ∀ fuel, f0 ≤ fuel → hold_loop p tStart fuel tEnd m = some m1 := by
  intro d
  induction d with
  | zero =>
    intro tEnd m h
    refine ⟨m, 1, fun fuel hf => ?_⟩
    obtain ⟨f, rfl⟩ : ∃ f, fuel = f + 1 := ⟨fuel - 1, by omega⟩
    simp only [hold_reading] at h
    rw [hold_loop, if_neg (by rw [h]; exact Bool.false_ne_true)]
  | succ d ih =>
    intro tEnd m h
    by_cases hu : p.under_one_second ((tEnd + 2 ^ 64 - tStart) % 2 ^ 64) = true
    · have hnext : p.under_one_second
          ((hold_reading p (get_time p m).1 (get_time p m).2 d + 2 ^ 64 - tStart) % 2 ^ 64)
            = false := by
        cases d with
        | zero => simpa [hold_reading, get_time] using h
        | succ i =>
          simpa [hold_reading, get_time, Nat.add_assoc, Nat.add_comm 1 i] using h
      obtain ⟨m1, f0, hf0⟩ := ih _ _ hnext
      refine ⟨m1, f0 + 1, fun fuel hf => ?_⟩
      obtain ⟨f, rfl⟩ : ∃ f, fuel = f + 1 := ⟨fuel - 1, by omega⟩
      rw [hold_loop, if_pos hu]
      exact hf0 f (by omega)
    · refine ⟨m, 1, fun fuel hf => ?_⟩
      obtain ⟨f, rfl⟩ : ∃ f, fuel = f + 1 := ⟨fuel - 1, by omega⟩
      rw [hold_loop, if_neg hu]

theorem wait_one_second_settles (p : Platform) (hhold : hold_always_ends p) (m : Machine) :
    ∃ m1 f0, ∀ fuel, f0 ≤ fuel → wait_one_second p fuel m = some m1 := by
  obtain ⟨j, hj, hu⟩ := hhold m.time_reads
  obtain ⟨d, rfl⟩ : ∃ d, j = m.time_reads + 1 + d := ⟨j - (m.time_reads + 1), by omega⟩
  unfold wait_one_second
  apply hold_loop_settles p _ d
  cases d with
  | zero => simpa [hold_reading, get_time] using hu
  | succ i =>
    have e : m.time_reads + 1 + (i + 1) = m.time_reads + 1 + 1 + i := by omega
    rw [e] at hu
    simpa [hold_reading, get_time] using hu

theorem command_and_wait_ready_settles (p : Platform) (hready : ready_infinitely_often p)
    (cmd : Nat) (m : Machine) :
    ∃ m1 f0, ∀ fuel, f0 ≤ fuel → command_and_wait_ready p cmd fuel m = some m1 := by
  obtain ⟨j, hj, hset⟩ := hready m.status_reads
  exact wait_status_settles p STATUS_READY (write_control cmd m)
    ⟨j, hj, by rw [Ne, and_ready_eq_zero]; simpa using hset⟩

theorem write_hello_world_settles (p : Platform) (hready : ready_infinitely_often p)
    (hhold : hold_always_ends p) (m : Machine) :
    ∃ m1 f0, ∀ fuel, f0 ≤ fuel → write_hello_world p fuel m = some m1 := by
  obtain ⟨a1, f1, h1⟩ := command_and_wait_ready_settles p hready CMD_RESET m
  obtain ⟨a2, f2, h2⟩ :=
    command_and_wait_ready_settles p hready CMD_UPDATE (update_leds hello_calls a1)
  obtain ⟨a3, f3, h3⟩ := wait_one_second_settles p hhold a2
  obtain ⟨a4, f4, h4⟩ := command_and_wait_ready_settles p hready CMD_RESET a3
  obtain ⟨a5, f5, h5⟩ :=
    command_and_wait_ready_settles p hready CMD_UPDATE (update_leds world_calls a4)
  obtain ⟨a6, f6, h6⟩ := wait_one_second_settles p hhold a5
  refine ⟨a6, f1 + f2 + f3 + f4 + f5 + f6, fun fuel hf => ?_⟩
  simp only [write_hello_world, h1 fuel (by omega), h2 fuel (by omega), h3 fuel (by omega),
    h4 fuel (by omega), h5 fuel (by omega), h6 fuel (by omega), Option.some_bind]

theorem main_loop_settles (p : Platform) (hready : ready_infinitely_often p)
    (hhold : hold_always_ends p) :
    ∀ (n : Nat) (m : Machine),
      ∃ m1 f0, ∀ fuel, f0 ≤ fuel → main_loop p fuel n m = some m1 := by
  intro n
  induction n with
  | zero => intro m; exact ⟨m, 0, fun _ _ => rfl⟩
  | succ n ih =>
    intro m
    obtain ⟨a, f1, h1⟩ := write_hello_world_settles p hready hhold m
    obtain ⟨m1, f2, h2⟩ := ih a
    refine ⟨m1, f1 + f2, fun fuel hf => ?_⟩
    simp only [main_loop, h1 fuel (by omega), Option.some_bind, h2 fuel (by omega)]

theorem main_settles (p : Platform) (hinit : eventually_initialized p)
    (hready : ready_infinitely_often p) (hhold : hold_always_ends p) (n : Nat) :
    ∃ m1 f0, ∀ fuel, f0 ≤ fuel → main p fuel n = some m1 := by
  obtain ⟨j, hj⟩ := hinit
  obtain ⟨a, f1, h1⟩ := wait_status_settles p STATUS_INITIALIZED
    (write_control CMD_INITIALIZE Machine.start)
    ⟨j, Nat.zero_le j, by rw [Ne, and_initialized_eq_zero]; simpa using hj⟩
  obtain ⟨m1, f2, h2⟩ := main_loop_settles p hready hhold n a
  refine ⟨m1, f1 + f2, fun fuel hf => ?_⟩
  simp only [main, initialize_display, h1 fuel (by omega), Option.some_bind,
    h2 fuel (by omega)]

/-! ## The demo's register traffic -/

theorem frames_control_cons (c : Nat) (t : List Access) :
    frames (Access.control_write c :: t) = ([], (c, (frames t).1) :: (frames t).2) := rfl

theorem frames_cycle_writes_append (rest : List Access) (hrest : (frames rest).1 = []) :
    frames (cycle_writes ++ rest) = ([], cycle_frames ++ (frames rest).2) := by
  unfold cycle_writes cycle_frames
  simp only [List.append_assoc, List.singleton_append, List.cons_append, List.nil_append]
  rw [frames_control_cons, frames_data_append, frames_control_cons, frames_control_cons,
    frames_data_append, frames_control_cons, hrest]
  rfl

theorem frames_cycles (n : Nat) :
    frames (List.replicate n cycle_writes).flatten
      = ([], (List.replicate n cycle_frames).flatten) := by
  induction n with
  | zero => rfl
  | succ n ih =>
    rw [List.replicate_succ, List.flatten_cons, frames_cycle_writes_append _ (by rw [ih]), ih,
      List.replicate_succ, List.flatten_cons]

theorem control_writes_cycles (n : Nat) :
    control_writes (List.replicate n cycle_writes).flatten
      = (List.replicate n [CMD_RESET, CMD_UPDATE, CMD_RESET, CMD_UPDATE]).flatten := by
  have h1 : control_writes cycle_writes = [CMD_RESET, CMD_UPDATE, CMD_RESET, CMD_UPDATE] := by
    decide
  induction n with
  | zero => rfl
  | succ n ih =>
    rw [List.replicate_succ, List.flatten_cons, control_writes_append, ih, h1,
      List.replicate_succ, List.flatten_cons]

theorem count_initialize_cycles (n : Nat) :
    (List.replicate n [CMD_RESET, CMD_UPDATE, CMD_RESET, CMD_UPDATE]).flatten.count
      CMD_INITIALIZE = 0 := by
  induction n with
  | zero => rfl
  | succ n ih =>
    rw [List.replicate_succ, List.flatten_cons, List.count_append, ih]
    decide

theorem hello_words_eq_spec : hello_calls.map call_word = spec_hello_pixels.map spec_pixel_word := by
  decide

theorem world_words_eq_spec : world_calls.map call_word = spec_world_pixels.map spec_pixel_word := by
  decide

/-- One call of `write_hello_world` that returns has added a trace whose
frames are those of `cycle_frames`. -/
theorem write_hello_world_frames (p : Platform) (fuel : Nat) (m m1 : Machine)
    (h : write_hello_world p fuel m = some m1) :
    ∃ t, m1.trace = m.trace ++ t ∧ frames t = ([], cycle_frames) := by
  obtain ⟨t, ht, hw, -⟩ := effect_write_hello_world p fuel m m1 h
  refine ⟨t, ht, ?_⟩
  have := frames_cycle_writes_append [] rfl
  rw [List.append_nil] at this
  rw [← frames_register_writes, hw, this]
  simp [frames]

theorem slow_platform_live :
    eventually_initialized slow_platform ∧ ready_infinitely_often slow_platform
      ∧ hold_always_ends slow_platform := by
  refine ⟨⟨2, by decide⟩, fun i => ⟨i + 4, by omega, ?_⟩, fun i => ⟨i + 2, by omega, ?_⟩⟩
  · simp only [slow_platform, show ¬ (i + 4 < 2) by omega, show ¬ (i + 4 < 4) by omega,
      if_false]
    decide
  · show decide (((i + 2) % 2 ^ 64 + 2 ^ 64 - i % 2 ^ 64) % 2 ^ 64 < 2) = false
    rw [decide_eq_false_iff_not]
    omega

/-- C6: in a call of `write_hello_world` that returns, the data writes after
the first `CMD_RESET` (0x4) and before the first `CMD_UPDATE` (0x1) are the
59 words of the pixels the specification lists for "Hello", each the encoding
of panel x / 8, local x % 8, y, enable 0x00010000, in that order; and the call
returns once every poll sees its bit and every hold ends. -/
theorem hello_data_writes (p : Platform) (m : Machine) :
    (∀ fuel m1, write_hello_world p fuel m = some m1 →
      ∃ t rest, m1.trace = m.trace ++ t
        ∧ frames t = ([], (0x4, spec_hello_pixels.map spec_pixel_word) :: (0x1, []) :: rest))
    ∧ (spec_hello_pixels.map spec_pixel_word).length = 59
    ∧ (ready_infinitely_often p → hold_always_ends p →
        ∃ m1 f0, ∀ fuel, f0 ≤ fuel → write_hello_world p fuel m = some m1) := by
  refine ⟨fun fuel m1 h => ?_, by decide,
    fun hr hh => write_hello_world_settles p hr hh m⟩
  obtain ⟨t, ht, hf⟩ := write_hello_world_frames p fuel m m1 h
  refine ⟨t, [(CMD_RESET, world_calls.map call_word), (CMD_UPDATE, [])], ht, ?_⟩
  rw [hf, cycle_frames, hello_words_eq_spec]
  rfl

/-- Witness for C6: on `slow_platform` the call returns. -/
theorem hello_data_writes_witness :
    ∃ m1 f0, ∀ fuel, f0 ≤ fuel → write_hello_world slow_platform fuel Machine.start = some m1 :=
  (hello_data_writes slow_platform Machine.start).2.2 slow_platform_live.2.1
    slow_platform_live.2.2

/-- C7: in a call of `write_hello_world` that returns, the control writes are
0x4, 0x1, 0x4, 0x1, and the data writes after the second `CMD_RESET` and
before the second `CMD_UPDATE` are the 62 words of the pixels the
specification lists for "World", each the encoding of panel x / 8, local
x % 8, y, enable 0x00010000, in that order; and the call returns once every
poll sees its bit and every hold ends. -/
theorem world_data_writes (p : Platform) (m : Machine) :
    (∀ fuel m1, write_hello_world p fuel m = some m1 →
      ∃ t first, m1.trace = m.trace ++ t
        ∧ frames t = ([], [(0x4, first), (0x1, []),
            (0x4, spec_world_pixels.map spec_pixel_word), (0x1, [])]))
    ∧ (spec_world_pixels.map spec_pixel_word).length = 62
    ∧ (ready_infinitely_often p → hold_always_ends p →
        ∃ m1 f0, ∀ fuel, f0 ≤ fuel → write_hello_world p fuel m = some m1) := by
  refine ⟨fun fuel m1 h => ?_, by decide,
    fun hr hh => write_hello_world_settles p hr hh m⟩
  obtain ⟨t, ht, hf⟩ := write_hello_world_frames p fuel m m1 h
  refine ⟨t, hello_calls.map call_word, ht, ?_⟩
  rw [hf, cycle_frames, world_words_eq_spec]
  rfl

/-- Witness for C7: on `slow_platform` the call returns, from a later state. -/
theorem world_data_writes_witness :
    ∃ m1 f0, ∀ fuel, f0 ≤ fuel → write_hello_world slow_platform fuel ⟨4, 0, []⟩ = some m1 :=
  (world_data_writes slow_platform ⟨4, 0, []⟩).2.2 slow_platform_live.2.1
    slow_platform_live.2.2

/-- C8: when `main` has run `n` iterations of its loop, no data write
precedes the first control write, which is `CMD_INITIALIZE` (0x2) and occurs
once; each iteration writes the commands 0x4, 0x1, 0x4, 0x1; data writes
occur only after a `CMD_RESET` and before the next control write, which is a
`CMD_UPDATE`; every control write is followed by a poll that sees its bit
before the next register write; and `main` gets there once every poll sees
its bit and every hold ends. -/
theorem main_register_protocol (p : Platform) (n : Nat) :
    (∀ fuel m1, main p fuel n = some m1 →
      frames m1.trace
          = ([], (0x2, []) :: (List.replicate n
              [(0x4, hello_calls.map call_word), (0x1, []),
               (0x4, world_calls.map call_word), (0x1, [])]).flatten)
      ∧ control_writes m1.trace = 0x2 :: (List.replicate n [0x4, 0x1, 0x4, 0x1]).flatten
      ∧ (register_writes m1.trace).head? = some (Access.control_write 0x2)
      ∧ (control_writes m1.trace).count 0x2 = 1
      ∧ handshake_ok m1.trace)
    ∧ (eventually_initialized p → ready_infinitely_often p → hold_always_ends p →
        ∃ m1 f0, ∀ fuel, f0 ≤ fuel → main p fuel n = some m1) := by
  refine ⟨fun fuel m1 h => ?_, fun hi hr hh => main_settles p hi hr hh n⟩
  obtain ⟨t, ht, hw, hs⟩ := effect_main p fuel n m1 h
  have htr : m1.trace = t := by rw [ht]; rfl
  have hc : control_writes m1.trace
      = 0x2 :: (List.replicate n [0x4, 0x1, 0x4, 0x1]).flatten := by
    rw [htr, ← control_writes_register_writes, hw, control_writes, control_writes_cycles]
    rfl
  refine ⟨?_, hc, ?_, ?_, ?_⟩
  · rw [htr, ← frames_register_writes, hw, frames_control_cons, frames_cycles]
    rfl
  · rw [htr, hw]; rfl
  · rw [hc, List.count_cons_self]
    have := count_initialize_cycles n
    simp only [CMD_INITIALIZE, CMD_RESET, CMD_UPDATE] at this
    rw [this]
  · rw [handshake_ok, htr]; exact hs

/-- Witness for C8: on `slow_platform` two iterations of the loop complete. -/
theorem main_register_protocol_witness :
    ∃ m1 f0, ∀ fuel, f0 ≤ fuel → main slow_platform fuel 2 = some m1 :=
  (main_register_protocol slow_platform 2).2 slow_platform_live.1 slow_platform_live.2.1
    slow_platform_live.2.2

theorem hello_calls_in_range :
    ∀ c ∈ hello_calls, 1 ≤ c.1 ∧ c.1 ≤ 30 ∧ c.1 / 8 ≤ 3 ∧ c.1 % 8 ≤ 7
      ∧ 1 ≤ c.2.1 ∧ c.2.1 ≤ 5 ∧ c.2.2 = 0x00010000 := by
  decide

theorem world_calls_in_range :
    ∀ c ∈ world_calls, 1 ≤ c.1 ∧ c.1 ≤ 30 ∧ c.1 / 8 ≤ 3 ∧ c.1 % 8 ≤ 7
      ∧ 2 ≤ c.2.1 ∧ c.2.1 ≤ 6 ∧ c.2.2 = 0x00010000 := by
  decide

theorem call_word_layout (c : Nat × Nat × Nat) (hx : c.1 / 8 ≤ 3) (hy : c.2.1 ≤ 6)
    (he : c.2.2 = 0x00010000) :
    (call_word c).testBit 16 = true ∧ bit_field (call_word c) 17 15 = 0
      ∧ bit_field (call_word c) 11 5 = 0 := by
  have hsum : call_word c = 65536 + (256 * (c.1 / 8) + (8 * c.2.1 + c.1 % 8)) := by
    unfold call_word
    rw [he]
    exact led_word_enable _ _ _ (by omega) (by omega) (by omega)
  simp only [bit_field, Nat.shiftRight_eq_div_pow, Nat.testBit_to_div_mod, hsum,
    decide_eq_true_eq]
  omega

theorem data_words_layout :
    ∀ w ∈ hello_calls.map call_word ++ world_calls.map call_word,
      w.testBit 16 = true ∧ bit_field w 17 15 = 0 ∧ bit_field w 11 5 = 0 := by
  intro w hw
  rw [List.mem_append, List.mem_map, List.mem_map] at hw
  rcases hw with ⟨c, hc, rfl⟩ | ⟨c, hc, rfl⟩
  · obtain ⟨-, -, h3, -, -, h6, h7⟩ := hello_calls_in_range c hc
    exact call_word_layout c h3 (by omega) h7
  · obtain ⟨-, -, h3, -, -, h6, h7⟩ := world_calls_in_range c hc
    exact call_word_layout c h3 h6 h7

theorem hello_words_nodup : (hello_calls.map call_word).Nodup := by
  decide

theorem world_words_nodup : (world_calls.map call_word).Nodup := by
  decide

/-- C10: every `update_led` call of `write_hello_world` has x in [1,30], so
panel x / 8 in [0,3] and local x % 8 in [0,7], y in [1,5] for "Hello" and in
[2,6] for "World", and enable 0x00010000; every data word written has bit 16
set and bits 31:17 and 15:11 zero; and between a `CMD_RESET` and the
following `CMD_UPDATE` no data word is written twice. -/
theorem write_hello_world_calls_in_range (p : Platform) (m : Machine) :
    (∀ c ∈ hello_calls, 1 ≤ c.1 ∧ c.1 ≤ 30 ∧ c.1 / 8 ≤ 3 ∧ c.1 % 8 ≤ 7
        ∧ 1 ≤ c.2.1 ∧ c.2.1 ≤ 5 ∧ c.2.2 = 0x00010000)
    ∧ (∀ c ∈ world_calls, 1 ≤ c.1 ∧ c.1 ≤ 30 ∧ c.1 / 8 ≤ 3 ∧ c.1 % 8 ≤ 7
        ∧ 2 ≤ c.2.1 ∧ c.2.1 ≤ 6 ∧ c.2.2 = 0x00010000)
    ∧ (∀ fuel m1, write_hello_world p fuel m = some m1 →
      ∃ t hello world, m1.trace = m.trace ++ t
        ∧ frames t = ([], [(0x4, hello), (0x1, []), (0x4, world), (0x1, [])])
        ∧ hello = hello_calls.map call_word ∧ world = world_calls.map call_word
        ∧ (∀ w ∈ hello ++ world,
            w.testBit 16 = true ∧ bit_field w 17 15 = 0 ∧ bit_field w 11 5 = 0)
        ∧ hello.Nodup ∧ world.Nodup)
    ∧ (ready_infinitely_often p → hold_always_ends p →
        ∃ m1 f0, ∀ fuel, f0 ≤ fuel → write_hello_world p fuel m = some m1) := by
  refine ⟨hello_calls_in_range, world_calls_in_range, fun fuel m1 h => ?_,
    fun hr hh => write_hello_world_settles p hr hh m⟩
  obtain ⟨t, ht, hf⟩ := write_hello_world_frames p fuel m m1 h
  exact ⟨t, _, _, ht, hf, rfl, rfl, data_words_layout, hello_words_nodup, world_words_nodup⟩

/-- Witness for C10: on `slow_platform` the call returns, from a state with a
non-empty trace. -/
theorem write_hello_world_calls_in_range_witness :
    ∃ m1 f0, ∀ fuel, f0 ≤ fuel →
      write_hello_world slow_platform fuel ⟨1, 0, [Access.status_read 2]⟩ = some m1 :=
  (write_hello_world_calls_in_range slow_platform ⟨1, 0, [Access.status_read 2]⟩).2.2.2
    slow_platform_live.2.1 slow_platform_live.2.2

end LedManager
